import Mathlib

/-!
Verification of the cxrs quality gate (`tools/quality_gate.py`).

The program scans a tree of `.rs` files, flags files and functions that
exceed configured line-count thresholds, counts a discouraged
`eprintln!(` pattern, prints a report and returns an exit code.

The shallow embedding below models:
* text as `List Char` (`Str`); a source file as a pair of path and raw text;
* the file system seen by `main` as a `rootExists` flag plus the list of
  `.rs` files (path and contents) that `rglob` would enumerate; path order
  is the lexicographic order on the path characters;
* `PAT_FN` (the function-signature regex) as an explicit matcher;
* the brace-depth scanner, the function extractor, both violation
  collectors, the pattern counter and the verdict logic of `main`;
* the lines printed by `main` as an abstract `GateMsg` list, one
  constructor per `print` statement.
-/

namespace QualityGate

/-- Text is a list of characters. -/
abbrev Str := List Char

/-- A source file: path string and raw file text (`path.read_text()`). -/
abbrev RsFile := Str × Str

/-- Python whitespace (`\s` of the `re` module / `str.isspace`), restricted to
the characters that can occur in source text handled by the gate. -/
def pySpace (c : Char) : Bool :=
  c = ' ' || c = '\t' || c = '\n' || c = '\r' || c = '\x0b' || c = '\x0c' ||
  ('\x1c' ≤ c && c ≤ '\x1f') || c = '\x85' || c = '\xa0' || c = '\u1680' ||
  ('\u2000' ≤ c && c ≤ '\u200a') || c = '\u2028' || c = '\u2029' ||
  c = '\u202f' || c = '\u205f' || c = '\u3000'

/-- Line-break characters recognized by Python's `str.splitlines`. -/
def lineBreakChar (c : Char) : Bool :=
  c = '\n' || c = '\r' || c = '\x0b' || c = '\x0c' || c = '\x1c' ||
  c = '\x1d' || c = '\x1e' || c = '\x85' || c = '\u2028' || c = '\u2029'

/-- Worker for `splitLines`; `acc` holds the current line reversed. -/
def splitLinesGo (acc : Str) : Str → List Str
  | [] => if acc.isEmpty then [] else [acc.reverse]
  | '\r' :: '\n' :: rest => acc.reverse :: splitLinesGo [] rest
  | c :: rest =>
    if lineBreakChar c then acc.reverse :: splitLinesGo [] rest
    else splitLinesGo (c :: acc) rest

/-- Python `str.splitlines`: split at line breaks (`\r\n` counts once), with
no trailing empty line for text ending in a line break. -/
def splitLines (text : Str) : List Str := splitLinesGo [] text

/-- Identifier characters of `PAT_FN`'s name group `[A-Za-z0-9_]`. -/
def identChar (c : Char) : Bool := c.isAlpha || c.isDigit || c = '_'

/-- Drop leading whitespace (`\s*`). -/
def dropSpaces (cs : Str) : Str := cs.dropWhile pySpace

/-- Match `kw\s+` at the head of `cs`: the keyword followed by at least one
whitespace character, consuming all following whitespace; `none` if absent. -/
def stripKwSpace (kw cs : Str) : Option Str :=
  if kw.isPrefixOf cs then
    match cs.drop kw.length with
    | [] => none
    | c :: rest => if pySpace c then some (dropSpaces rest) else none
  else none

/-- Match an optional `(kw\s+)?` group; on failure the input is unchanged.
Since no alternative of `PAT_FN` that follows can begin with the first letter
of `pub` or `async`, this greedy reading is equivalent to the regex. -/
def optKw (kw cs : Str) : Str := (stripKwSpace kw cs).getD cs

/-- The `PAT_FN` regex `^\s*(pub\s+)?(async\s+)?fn\s+([A-Za-z0-9_]+)\s*\(`
applied with `re.match` (anchored at the start of the line); returns the
captured function name (group 3) on success. -/
def matchFn (line : Str) : Option Str :=
  let cs1 := optKw "pub".toList (dropSpaces line)
  let cs2 := optKw "async".toList cs1
  match stripKwSpace "fn".toList cs2 with
  | none => none
  | some cs3 =>
    let name := cs3.takeWhile identChar
    if name = [] then none
    else
      match dropSpaces (cs3.dropWhile identChar) with
      | '\x28' :: _ => some name
      | _ => none

/-- One step of the brace counter (`quality_gate.py` lines 34-39): `{`
increments the depth and marks `opened`; `}` decrements only once opened. -/
def braceStep (st : Int × Bool) (c : Char) : Int × Bool :=
  if c = '\x7b' then (st.1 + 1, true)
  else if c = '\x7d' ∧ st.2 = true then (st.1 - 1, st.2)
  else st

/-- Process all characters of one line through the brace counter. -/
def scanLine (st : Int × Bool) (line : Str) : Int × Bool := line.foldl braceStep st

/-- Brace-depth scanner (inner `while` loop, lines 33-46): walking the given
line suffix with the running `(depth, opened)` state, return the offset of
the first line at whose end `opened` holds and the depth is zero. -/
def findCloseAux : List Str → Int × Bool → Option Nat
  | [], _ => none
  | l :: rest, st =>
    let st2 := scanLine st l
    if st2.2 = true ∧ st2.1 = 0 then some 0
    else (findCloseAux rest st2).map (· + 1)

/-- Brace-depth scanner from the signature line with initial state
`depth = 0`, `opened = False` (lines 30-32). -/
def findClose (suffix : List Str) : Option Nat := findCloseAux suffix (0, false)

/-- A function span produced by the extractor: name, 1-based start line
(the signature line), 1-based end line and line count. -/
structure FnSpan where
  name : Str
  start : Nat
  stop : Nat
  len : Nat
deriving DecidableEq, Repr

/-- Function extractor (outer `while` loop, lines 23-48) without the
threshold filter: from cursor `i`, emit a span for each signature whose body
closes, jumping the cursor to just past the closing line; on a non-signature
line or an unterminated body, advance by one line.  `fuel` bounds the number
of iterations; `lines.length - i` iterations always suffice. -/
def scanSpansAux (lines : List Str) : Nat → Nat → List FnSpan
  | 0, _ => []
  | fuel + 1, i =>
    if i < lines.length then
      match matchFn (lines.getD i []) with
      | none => scanSpansAux lines fuel (i + 1)
      | some name =>
        match findClose (lines.drop i) with
        | none => scanSpansAux lines fuel (i + 1)
        | some k => ⟨name, i + 1, i + k + 1, k + 1⟩ :: scanSpansAux lines fuel (i + k + 1)
    else []

/-- Spans produced by the extractor scanning from 0-based cursor `i`. -/
def scanFrom (lines : List Str) (i : Nat) : List FnSpan :=
  scanSpansAux lines (lines.length - i) i

/-- All spans of a file, scanning from the top. -/
def scanSpans (lines : List Str) : List FnSpan := scanFrom lines 0

/-- A function violation record, mirroring the tuple
`(str(path), name, length, i + 1, j + 1)` appended at line 43. -/
structure FnViol where
  path : Str
  name : Str
  len : Nat
  start : Nat
  stop : Nat
deriving DecidableEq, Repr

/-- The violation record of a span in a given file. -/
def toViol (path : Str) (s : FnSpan) : FnViol :=
  ⟨path, s.name, s.len, s.start, s.stop⟩

/-- The threshold filter applied to a span at line 42: keep it exactly when
its length exceeds the limit and its name is not allow-listed. -/
def violFilter (path : Str) (maxLines : Nat) (allow : List Str) (s : FnSpan) :
    Option FnViol :=
  if s.len > maxLines ∧ s.name ∉ allow then some (toViol path s) else none

/-- `function_violations` for one file (lines 22-48), with the threshold
test inlined in the scan loop exactly as in the source. -/
def fnViolAux (path : Str) (lines : List Str) (maxLines : Nat) (allow : List Str) :
    Nat → Nat → List FnViol
  | 0, _ => []
  | fuel + 1, i =>
    if i < lines.length then
      match matchFn (lines.getD i []) with
      | none => fnViolAux path lines maxLines allow fuel (i + 1)
      | some name =>
        match findClose (lines.drop i) with
        | none => fnViolAux path lines maxLines allow fuel (i + 1)
        | some k =>
          (if k + 1 > maxLines ∧ name ∉ allow then
            [⟨path, name, k + 1, i + 1, i + k + 1⟩] else [])
          ++ fnViolAux path lines maxLines allow fuel (i + k + 1)
    else []

/-- Function violations of one file, scanning from the top. -/
def fnViolsFile (path : Str) (lines : List Str) (maxLines : Nat)
    (allow : List Str) : List FnViol :=
  fnViolAux path lines maxLines allow lines.length 0

/-- Split a path string at every `/` separator (`str.split("/")`); `acc`
holds the current component reversed.  For the well-formed relative paths
`rglob` yields, these are exactly the components `pathlib` compares. -/
def splitSlashGo (acc : Str) : Str → List Str
  | [] => [acc.reverse]
  | c :: rest =>
    if c = '/' then acc.reverse :: splitSlashGo [] rest
    else splitSlashGo (c :: acc) rest

/-- The component tuple of a path.  `sorted()` on `pathlib` paths compares
these tuples (`PurePath.__lt__` uses the case-normalized parts, which on
POSIX are the parts themselves), not the raw path strings: `src/a/y.rs`
sorts before `src/a-b/x.rs` even though the strings compare the other
way. -/
def pathParts (p : Str) : List Str := splitSlashGo [] p

/-- Rejoin components with `/`; the inverse of `pathParts`. -/
def joinSlash : List Str → Str
  | [] => []
  | [x] => x
  | x :: xs => x ++ '/' :: joinSlash xs

/-- Path order on files, as `sorted(src_root.rglob("*.rs"))` orders `Path`
objects: lexicographic comparison of the component tuples. -/
def pathLe (a b : RsFile) : Prop := pathParts a.1 ≤ pathParts b.1

/-- Strict component-tuple path order. -/
def pathLt (a b : RsFile) : Prop := pathParts a.1 < pathParts b.1

instance : DecidableRel pathLe := fun a b =>
  inferInstanceAs (Decidable (pathParts a.1 ≤ pathParts b.1))

instance : DecidableRel pathLt := fun a b =>
  inferInstanceAs (Decidable (pathParts a.1 < pathParts b.1))

instance : IsTotal RsFile pathLe := ⟨fun a b => le_total (pathParts a.1) (pathParts b.1)⟩

instance : IsTrans RsFile pathLe :=
  ⟨fun _ _ _ h1 h2 => le_trans (α := List Str) h1 h2⟩

instance : IsAntisymm RsFile pathLt :=
  ⟨fun _ _ h1 h2 => absurd (lt_trans (α := List Str) h1 h2) (lt_irrefl _)⟩

/-- The sorted file enumeration used by all three collectors. -/
def sortFiles (files : List RsFile) : List RsFile := List.insertionSort pathLe files

/-- `file_violations` (lines 10-16): every file whose line count exceeds the
limit, as `(path, line count)`, in sorted path order. -/
def file_violations (files : List RsFile) (maxLines : Nat) : List (Str × Nat) :=
  (sortFiles files).filterMap fun f =>
    if (splitLines f.2).length > maxLines then some (f.1, (splitLines f.2).length)
    else none

/-- `function_violations` (lines 19-49): per-file scan results over the
sorted file enumeration. -/
def function_violations (files : List RsFile) (maxLines : Nat)
    (allow : List Str) : List FnViol :=
  (sortFiles files).flatMap fun f => fnViolsFile f.1 (splitLines f.2) maxLines allow

/-- The discouraged pattern literal `eprintln!(`. -/
def EPRINTLN : Str := "eprintln!(".toList

/-- Non-overlapping substring count (`str.count`) for a non-empty pattern;
`fuel = text.length` always suffices. -/
def countSubAux (pat : Str) : Nat → Str → Nat
  | 0, _ => 0
  | _ + 1, [] => 0
  | fuel + 1, c :: rest =>
    if pat.isPrefixOf (c :: rest) then 1 + countSubAux pat fuel ((c :: rest).drop pat.length)
    else countSubAux pat fuel rest

/-- Non-overlapping count of `pat` in `text` (`text.count(pat)`). -/
def countSub (pat text : Str) : Nat := countSubAux pat text.length text

/-- `error_pattern_count` (lines 52-57): total `eprintln!(` count over all
files. -/
def error_pattern_count (files : List RsFile) : Nat :=
  ((sortFiles files).map fun f => countSub EPRINTLN f.2).sum

/-- Modelled from argparse semantics of line 65: with
`action="append", default=["execute_task"]`, user-supplied `--allow-fn`
values are appended to the default list, so the parsed list is the default
exemption followed by the user additions. -/
def allow_fn_args (extra : List Str) : List Str := "execute_task".toList :: extra

/-- One print statement of `main`, abstracting the formatted text: each
constructor corresponds to one `print` at lines 77-103. -/
inductive GateMsg where
  | rootNotFound (srcPath : Str)
  | header
  | fileMaxLines (n : Nat)
  | fnMaxLines (n : Nat) (allow : List Str)
  | fileViolCount (n : Nat)
  | fileViolItem (path : Str) (n : Nat)
  | fnViolCount (n : Nat)
  | fnViolItem (path : Str) (start stop : Nat) (name : Str) (len : Nat)
  | epCountMsg (n : Nat)
  | baselineExceeded (count baseline : Nat)
deriving DecidableEq, Repr

/-- `sorted(allow)` where `allow = set(args.allow_fn)`: duplicates collapse
and the names are listed in order. -/
def sortAllow (allow : List Str) : List Str :=
  List.insertionSort (fun a b : Str => a ≤ b) allow.dedup

/-- The unconditional report of `main` (lines 85-96): header, configuration
echo, both violation lists (function violations capped at 100 items) and the
pattern count. -/
def reportMsgs (maxFileLines maxFnLines : Nat) (allow : List Str)
    (fileV : List (Str × Nat)) (fnV : List FnViol) (ep : Nat) : List GateMsg :=
  [GateMsg.header, GateMsg.fileMaxLines maxFileLines,
   GateMsg.fnMaxLines maxFnLines (sortAllow allow),
   GateMsg.fileViolCount fileV.length]
  ++ fileV.map (fun v => GateMsg.fileViolItem v.1 v.2)
  ++ [GateMsg.fnViolCount fnV.length]
  ++ (fnV.take 100).map (fun v => GateMsg.fnViolItem v.path v.start v.stop v.name v.len)
  ++ [GateMsg.epCountMsg ep]

/-- `main` (lines 60-107): the printed messages and the returned exit code.
The file system is modelled by `rootExists` and the enumerated `files`. -/
def gateMain (srcPath : Str) (rootExists : Bool) (maxFileLines maxFnLines : Nat)
    (allowArgs : List Str) (strictErrors : Bool) (maxRawEprintln : Option Nat)
    (files : List RsFile) : List GateMsg × Nat :=
  if rootExists = false then ([GateMsg.rootNotFound srcPath], 2)
  else
    let fileV := file_violations files maxFileLines
    let fnV := function_violations files maxFnLines allowArgs
    let ep := error_pattern_count files
    let report := reportMsgs maxFileLines maxFnLines allowArgs fileV fnV ep
    if fileV ≠ [] ∨ fnV ≠ [] then (report, 1)
    else
      match maxRawEprintln with
      | some b =>
        if ep > b then (report ++ [GateMsg.baselineExceeded ep b], 1)
        else if strictErrors = true ∧ ep > 0 then (report, 1)
        else (report, 0)
      | none =>
        if strictErrors = true ∧ ep > 0 then (report, 1)
        else (report, 0)

/-- True when no message of the list is the baseline-exceeded ERROR line. -/
def noBaselineMsg (msgs : List GateMsg) : Bool :=
  msgs.all fun m =>
    match m with
    | GateMsg.baselineExceeded _ _ => false
    | _ => true

/-- Modelled from the spec: the character-granularity reading of the
Brace-Depth Scanner contract in §4.1, under which scanning runs character by
character and the scan stops at the line where the depth counter first
returns to zero, even when that happens part-way through the line. -/
def lineHitsZero (st : Int × Bool) (line : Str) : (Int × Bool) × Bool :=
  line.foldl
    (fun (p : (Int × Bool) × Bool) c =>
      let st2 := braceStep p.1 c
      (st2, p.2 || (st2.2 && st2.1 == 0)))
    (st, false)

/-- Modelled from the spec: offset of the first line on which the depth
counter, once opened, touches zero at any character position. -/
def charLevelCloseAux : List Str → Int × Bool → Option Nat
  | [], _ => none
  | l :: rest, st =>
    let r := lineHitsZero st l
    if r.2 = true then some 0 else (charLevelCloseAux rest r.1).map (· + 1)

/-- Modelled from the spec: character-granularity closing line, from the
initial state `depth = 0`, `opened = False`. -/
def charLevelClose (suffix : List Str) : Option Nat :=
  charLevelCloseAux suffix (0, false)

/-- End-of-line closing condition: after processing all characters of lines
`0..k` of the suffix, at least one `{` has been seen and the depth is zero. -/
def lineClosedAt (suffix : List Str) (k : Nat) : Prop :=
  ((suffix.take (k + 1)).foldl scanLine (0, false)).2 = true ∧
  ((suffix.take (k + 1)).foldl scanLine (0, false)).1 = 0

instance : (baseline : Option Nat) → (ep : Nat) →
    Decidable (∃ b, baseline = some b ∧ ep > b) := fun baseline ep =>
  match baseline with
  | none => isFalse (by simp)
  | some b => if h : ep > b then isTrue ⟨b, rfl, h⟩ else isFalse (by simpa using h)

/-- Two-line input whose depth touches zero part-way through the signature
line and then reopens on that same line. -/
def cexLines : List Str := ["fn f() \x7b\x7d \x7b".toList, "\x7d".toList]

/-- One short file with two lines and one discouraged-pattern occurrence. -/
def c2files : List RsFile := [("src/a.rs".toList, "eprintln!(x);\nfoo".toList)]

/-- A path and three- and four-line texts for the file-size boundary. -/
def wPath : Str := "a.rs".toList

/-- Three-line text. -/
def wText3 : Str := "a\nb\nc".toList

/-- Four-line text. -/
def wText4 : Str := "a\nb\nc\nd".toList

/-- A two-line function and the span the extractor produces for it. -/
def c4lines : List Str := ["fn g() \x7b".toList, "\x7d".toList]

/-- The span of the two-line function in `c4lines`. -/
def c4span : FnSpan := ⟨"g".toList, 1, 2, 2⟩

/-- A signature line whose body never closes. -/
def c5lines : List Str := ["fn f() \x7b".toList]

/-- Two complete two-line functions in sequence. -/
def c6lines : List Str :=
  ["fn a() \x7b".toList, "\x7d".toList, "fn b() \x7b".toList, "\x7d".toList]

/-- A two-line file. -/
def w7a : RsFile := ("a.rs".toList, "x\nx".toList)

/-- A one-line file with a path sorting after `w7a`. -/
def w7b : RsFile := ("b.rs".toList, "y".toList)

/-- The path of the 80-line `execute_task` file. -/
def c8path : Str := "src/a.rs".toList

/-- Text of an 80-line function named `execute_task`. -/
def c8text : Str :=
  ("fn execute_task() \x7b\n" ++ String.join (List.replicate 78 "x\n") ++ "\x7d").toList

/-- One file holding a single two-line function. -/
def c9files : List RsFile := [("a.rs".toList, "fn f() \x7b\n\x7d".toList)]

/-- The empty trailing line never matches the signature pattern. -/
theorem matchFn_nil : matchFn [] = none := rfl

/-- Any fuel of at least `lines.length - i` gives the same extractor result:
the scan makes at most one outer iteration per remaining line. -/
theorem scanSpansAux_congr (lines : List Str) :
    ∀ f₁ f₂ i, lines.length - i ≤ f₁ → lines.length - i ≤ f₂ →
      scanSpansAux lines f₁ i = scanSpansAux lines f₂ i := by
  intro f₁
  induction f₁ with
  | zero =>
    intro f₂ i h₁ _
    have hi : ¬ i < lines.length := by omega
    cases f₂ with
    | zero => rfl
    | succ g => simp [scanSpansAux, hi]
  | succ f ih =>
    intro f₂ i h₁ h₂
    cases f₂ with
    | zero =>
      have hi : ¬ i < lines.length := by omega
      simp [scanSpansAux, hi]
    | succ g =>
      by_cases hi : i < lines.length
      · simp only [scanSpansAux, if_pos hi]
        cases hm : matchFn (lines.getD i []) with
        | none => exact ih g (i + 1) (by omega) (by omega)
        | some name =>
          cases hc : findClose (lines.drop i) with
          | none => exact ih g (i + 1) (by omega) (by omega)
          | some k => exact congrArg (List.cons _) (ih g (i + k + 1) (by omega) (by omega))
      · simp [scanSpansAux, hi]

/-- Data invariants of every extracted span: the start line is past the
cursor, 1-based start is at most the end line, and the length is the line
count of the closed range. -/
theorem scanSpansAux_inv (lines : List Str) :
    ∀ fuel i, ∀ s ∈ scanSpansAux lines fuel i,
      i + 1 ≤ s.start ∧ s.start ≤ s.stop ∧ s.len = s.stop - s.start + 1 := by
  intro fuel
  induction fuel with
  | zero => intro i s h; simp [scanSpansAux] at h
  | succ f ih =>
    intro i s h
    by_cases hi : i < lines.length
    · simp only [scanSpansAux, if_pos hi] at h
      cases hm : matchFn (lines.getD i []) with
      | none =>
        rw [hm] at h
        have := ih (i + 1) s h
        exact ⟨by omega, this.2⟩
      | some name =>
        rw [hm] at h
        cases hc : findClose (lines.drop i) with
        | none =>
          rw [hc] at h
          have := ih (i + 1) s h
          exact ⟨by omega, this.2⟩
        | some k =>
          rw [hc] at h
          rcases List.mem_cons.mp h with rfl | h'
          · refine ⟨?_, ?_, ?_⟩
            · show i + 1 ≤ i + 1
              omega
            · show i + 1 ≤ i + k + 1
              omega
            · show k + 1 = i + k + 1 - (i + 1) + 1
              omega
          · have := ih (i + k + 1) s h'
            exact ⟨by omega, this.2⟩
    · simp [scanSpansAux, hi] at h

/-- Successive spans are disjoint: each span ends strictly before the next
begins, because the cursor jumps to just past the closing line. -/
theorem scanSpansAux_pairwise (lines : List Str) :
    ∀ fuel i, (scanSpansAux lines fuel i).Pairwise fun a b => a.stop < b.start := by
  intro fuel
  induction fuel with
  | zero => intro i; simp [scanSpansAux]
  | succ f ih =>
    intro i
    by_cases hi : i < lines.length
    · simp only [scanSpansAux, if_pos hi]
      cases hm : matchFn (lines.getD i []) with
      | none => exact ih (i + 1)
      | some name =>
        cases hc : findClose (lines.drop i) with
        | none => exact ih (i + 1)
        | some k =>
          refine List.Pairwise.cons ?_ (ih (i + k + 1))
          intro b hb
          have hb1 := (scanSpansAux_inv lines f (i + k + 1) b hb).1
          show i + k + 1 < b.start
          omega
    · simp [scanSpansAux, hi]

/-- The extractor emits at most one span per remaining line. -/
theorem scanSpansAux_length (lines : List Str) :
    ∀ fuel i, (scanSpansAux lines fuel i).length ≤ lines.length - i := by
  intro fuel
  induction fuel with
  | zero => intro i; simp [scanSpansAux]
  | succ f ih =>
    intro i
    by_cases hi : i < lines.length
    · simp only [scanSpansAux, if_pos hi]
      cases hm : matchFn (lines.getD i []) with
      | none =>
        show (scanSpansAux lines f (i + 1)).length ≤ lines.length - i
        have := ih (i + 1)
        omega
      | some name =>
        cases hc : findClose (lines.drop i) with
        | none =>
          show (scanSpansAux lines f (i + 1)).length ≤ lines.length - i
          have := ih (i + 1)
          omega
        | some k =>
          show (⟨name, i + 1, i + k + 1, k + 1⟩ :: scanSpansAux lines f (i + k + 1) :
              List FnSpan).length ≤ lines.length - i
          have := ih (i + k + 1)
          simp only [List.length_cons]
          omega
    · simp [scanSpansAux, hi]

/-- The inlined threshold test of the source loop agrees with filtering the
extracted spans through `violFilter`. -/
theorem fnViolAux_eq_filterMap (path : Str) (lines : List Str) (m : Nat)
    (allow : List Str) :
    ∀ fuel i, fnViolAux path lines m allow fuel i =
      (scanSpansAux lines fuel i).filterMap (violFilter path m allow) := by
  intro fuel
  induction fuel with
  | zero => intro i; simp [fnViolAux, scanSpansAux]
  | succ f ih =>
    intro i
    by_cases hi : i < lines.length
    · simp only [fnViolAux, scanSpansAux, if_pos hi]
      cases hm : matchFn (lines.getD i []) with
      | none => exact ih (i + 1)
      | some name =>
        cases hc : findClose (lines.drop i) with
        | none => exact ih (i + 1)
        | some k =>
          show (if k + 1 > m ∧ name ∉ allow then
                  [⟨path, name, k + 1, i + 1, i + k + 1⟩] else [])
                ++ fnViolAux path lines m allow f (i + k + 1) =
              List.filterMap (violFilter path m allow)
                (⟨name, i + 1, i + k + 1, k + 1⟩ :: scanSpansAux lines f (i + k + 1))
          rw [List.filterMap_cons, ih (i + k + 1)]
          by_cases hv : k + 1 > m ∧ name ∉ allow
          · rw [if_pos hv]
            have hvf : violFilter path m allow ⟨name, i + 1, i + k + 1, k + 1⟩ =
                some ⟨path, name, k + 1, i + 1, i + k + 1⟩ := by
              unfold violFilter
              rw [if_pos hv]
              rfl
            rw [hvf]
            rfl
          · rw [if_neg hv]
            have hvf : violFilter path m allow ⟨name, i + 1, i + k + 1, k + 1⟩ = none := by
              unfold violFilter
              rw [if_neg hv]
            rw [hvf]
            rfl
    · simp [fnViolAux, scanSpansAux, hi]

/-- Per-file violations are exactly the spans passing the threshold filter. -/
theorem fnViolsFile_eq_filterMap (path : Str) (lines : List Str) (m : Nat)
    (allow : List Str) :
    fnViolsFile path lines m allow =
      (scanSpans lines).filterMap (violFilter path m allow) := by
  unfold fnViolsFile scanSpans scanFrom
  rw [Nat.sub_zero]
  exact fnViolAux_eq_filterMap path lines m allow lines.length 0

/-- Characterization of the brace-depth scanner: threading the state line by
line from the given initial state, it returns the offset of the first line
whose end-of-line state has `opened` set and depth zero. -/
theorem findCloseAux_some_iff (suffix : List Str) :
    ∀ (st : Int × Bool) (k : Nat),
      findCloseAux suffix st = some k ↔
        k < suffix.length ∧
        (((suffix.take (k + 1)).foldl scanLine st).2 = true ∧
         ((suffix.take (k + 1)).foldl scanLine st).1 = 0) ∧
        ∀ k' < k, ¬ (((suffix.take (k' + 1)).foldl scanLine st).2 = true ∧
          ((suffix.take (k' + 1)).foldl scanLine st).1 = 0) := by
  induction suffix with
  | nil =>
    intro st k
    simp [findCloseAux]
  | cons l rest ih =>
    intro st k
    simp only [findCloseAux]
    by_cases h : (scanLine st l).2 = true ∧ (scanLine st l).1 = 0
    · rw [if_pos h]
      constructor
      · intro h0
        have hk : k = 0 := by
          injection h0 with h0
          omega
        subst hk
        refine ⟨by simp, ?_, ?_⟩
        · simpa only [List.take_succ_cons, List.take_zero, List.foldl_cons,
            List.foldl_nil] using h
        · intro k' hk'
          exact absurd hk' (Nat.not_lt_zero _)
      · rintro ⟨hk, hc, hmin⟩
        cases k with
        | zero => rfl
        | succ k =>
          exfalso
          refine hmin 0 (Nat.succ_pos _) ?_
          simpa only [List.take_succ_cons, List.take_zero, List.foldl_cons,
            List.foldl_nil] using h
    · rw [if_neg h]
      cases k with
      | zero =>
        constructor
        · intro h0
          exfalso
          rcases Option.map_eq_some'.mp h0 with ⟨k0, _, hk0⟩
          omega
        · rintro ⟨_, hc, _⟩
          exact absurd (by simpa only [List.take_succ_cons, List.take_zero,
            List.foldl_cons, List.foldl_nil] using hc) h
      | succ k =>
        rw [Option.map_eq_some']
        constructor
        · rintro ⟨k0, hrec, hk0⟩
          have hke : k0 = k := by omega
          rw [hke] at hrec
          rcases (ih (scanLine st l) k).mp hrec with ⟨hlen, hcl, hmin⟩
          refine ⟨by simp only [List.length_cons]; omega, ?_, ?_⟩
          · simpa only [List.take_succ_cons, List.foldl_cons] using hcl
          · intro k' hk'
            cases k' with
            | zero =>
              simpa only [List.take_succ_cons, List.take_zero, List.foldl_cons,
                List.foldl_nil] using h
            | succ k'' =>
              have := hmin k'' (by omega)
              simpa only [List.take_succ_cons, List.foldl_cons] using this
        · rintro ⟨hlen, hcl, hmin⟩
          refine ⟨k, ?_, rfl⟩
          refine (ih (scanLine st l) k).mpr
            ⟨by simp only [List.length_cons] at hlen; omega, ?_, ?_⟩
          · simpa only [List.take_succ_cons, List.foldl_cons] using hcl
          · intro k'' hk''
            have := hmin (k'' + 1) (by omega)
            simpa only [List.take_succ_cons, List.foldl_cons] using this

/-- `sortFiles` output is sorted by path. -/
theorem sortFiles_sorted (files : List RsFile) :
    (sortFiles files).Pairwise pathLe :=
  List.sorted_insertionSort pathLe files

/-- `sortFiles` permutes its input. -/
theorem sortFiles_perm (files : List RsFile) : List.Perm (sortFiles files) files :=
  List.perm_insertionSort pathLe files

/-- Splitting a path always yields at least one component. -/
theorem splitSlashGo_ne_nil (cs acc : Str) : splitSlashGo acc cs ≠ [] := by
  induction cs generalizing acc with
  | nil => simp [splitSlashGo]
  | cons c rest ih =>
    by_cases h : c = '/'
    · simp [splitSlashGo, h]
    · simp only [splitSlashGo, if_neg h]
      exact ih (c :: acc)

/-- Rejoining the components of `acc.reverse ++ cs` recovers it. -/
theorem joinSlash_splitSlashGo (cs : Str) :
    ∀ acc, joinSlash (splitSlashGo acc cs) = acc.reverse ++ cs := by
  induction cs with
  | nil => intro acc; simp [splitSlashGo, joinSlash]
  | cons c rest ih =>
    intro acc
    by_cases h : c = '/'
    · simp only [splitSlashGo, if_pos h]
      cases hsp : splitSlashGo [] rest with
      | nil => exact absurd hsp (splitSlashGo_ne_nil rest [])
      | cons y ys =>
        show acc.reverse ++ '/' :: joinSlash (y :: ys) = acc.reverse ++ c :: rest
        rw [← hsp, ih []]
        simp [h]
    · simp only [splitSlashGo, if_neg h]
      rw [ih (c :: acc)]
      simp

/-- Distinct path strings have distinct component tuples. -/
theorem pathParts_inj {a b : Str} (h : pathParts a = pathParts b) : a = b := by
  have ha : joinSlash (pathParts a) = a := by
    unfold pathParts
    rw [joinSlash_splitSlashGo]
    rfl
  have hb : joinSlash (pathParts b) = b := by
    unfold pathParts
    rw [joinSlash_splitSlashGo]
    rfl
  calc a = joinSlash (pathParts a) := ha.symm
    _ = joinSlash (pathParts b) := by rw [h]
    _ = b := hb

/-- The modelled path order matches `pathlib`, not raw string order:
`src/a/y.rs` precedes `src/a-b/x.rs` although its path string is the
larger one. -/
theorem pathLt_component_order :
    pathLt ("src/a/y.rs".toList, []) ("src/a-b/x.rs".toList, []) ∧
    "src/a-b/x.rs".toList < "src/a/y.rs".toList ∧
    sortFiles [("src/a-b/x.rs".toList, []), ("src/a/y.rs".toList, [])] =
      [("src/a/y.rs".toList, []), ("src/a-b/x.rs".toList, [])] := by decide

/-- With pairwise-distinct paths, a list sorted by path is strictly sorted. -/
theorem pairwise_lt_of_pathLe {l : List RsFile} (hle : l.Pairwise pathLe)
    (hnd : (l.map Prod.fst).Nodup) : l.Pairwise pathLt := by
  have hne : l.Pairwise fun x y : RsFile => x.1 ≠ y.1 := List.pairwise_map.mp hnd
  refine (hle.and hne).imp fun h => ?_
  exact lt_of_le_of_ne h.1 fun he => h.2 (pathParts_inj he)

/-- File-system enumeration order does not matter: permuted inputs with
pairwise-distinct paths sort to the same list. -/
theorem sortFiles_eq_of_perm {a b : List RsFile} (hab : List.Perm a b)
    (hnd : (a.map Prod.fst).Nodup) : sortFiles a = sortFiles b := by
  have hperm : List.Perm (sortFiles a) (sortFiles b) :=
    (sortFiles_perm a).trans (hab.trans (sortFiles_perm b).symm)
  have hnda : ((sortFiles a).map Prod.fst).Nodup :=
    ((sortFiles_perm a).map Prod.fst).symm.nodup hnd
  have hndb : ((sortFiles b).map Prod.fst).Nodup :=
    ((sortFiles_perm b).map Prod.fst).symm.nodup ((hab.map Prod.fst).nodup hnd)
  exact List.eq_of_perm_of_sorted hperm
    (pairwise_lt_of_pathLe (sortFiles_sorted a) hnda)
    (pairwise_lt_of_pathLe (sortFiles_sorted b) hndb)

/-- The unconditional report never contains the baseline-exceeded message. -/
theorem noBaselineMsg_reportMsgs (mF mFn : Nat) (allow : List Str)
    (fileV : List (Str × Nat)) (fnV : List FnViol) (ep : Nat) :
    noBaselineMsg (reportMsgs mF mFn allow fileV fnV ep) = true := by
  rw [noBaselineMsg, List.all_eq_true]
  intro m hm
  simp only [reportMsgs, List.mem_append, List.mem_cons, List.mem_map,
    List.mem_singleton, List.not_mem_nil, or_false] at hm
  rcases hm with ((((rfl | rfl | rfl | rfl) | ⟨v, hv, rfl⟩) | rfl) | ⟨v, hv, rfl⟩) | rfl <;> rfl

/-- With the source root present and a structural violation, `main` prints
the report and returns 1 without reaching the baseline check. -/
theorem gateMain_of_viol (srcPath : Str) (mF mFn : Nat) (allowArgs : List Str)
    (strict : Bool) (baseline : Option Nat) (files : List RsFile)
    (h : file_violations files mF ≠ [] ∨ function_violations files mFn allowArgs ≠ []) :
    gateMain srcPath true mF mFn allowArgs strict baseline files =
      (reportMsgs mF mFn allowArgs (file_violations files mF)
        (function_violations files mFn allowArgs) (error_pattern_count files), 1) := by
  simp only [gateMain]
  rw [if_neg (by decide : ¬ (true = false))]
  rw [if_pos h]

/-- `scanSpans` unfolds to the fuelled scan at full fuel. -/
theorem scanSpans_eq_aux (lines : List Str) :
    scanSpans lines = scanSpansAux lines lines.length 0 := by
  unfold scanSpans scanFrom
  rw [Nat.sub_zero]

/-- Invariants of every span of a file scan. -/
theorem scanSpans_inv (lines : List Str) :
    ∀ s ∈ scanSpans lines,
      1 ≤ s.start ∧ s.start ≤ s.stop ∧ s.len = s.stop - s.start + 1 := by
  rw [scanSpans_eq_aux]
  intro s hs
  have h := scanSpansAux_inv lines lines.length 0 s hs
  exact ⟨by omega, h.2⟩

/-- Spans of a file scan are pairwise disjoint in order. -/
theorem scanSpans_pairwise (lines : List Str) :
    (scanSpans lines).Pairwise fun a b => a.stop < b.start := by
  rw [scanSpans_eq_aux]
  exact scanSpansAux_pairwise lines lines.length 0

/-- Two spans of the same scan with the same start line are equal. -/
theorem scanSpans_start_inj (lines : List Str) {s t : FnSpan}
    (hs : s ∈ scanSpans lines) (ht : t ∈ scanSpans lines)
    (hst : s.start = t.start) : s = t := by
  by_contra hne
  have hp : (scanSpans lines).Pairwise
      fun a b : FnSpan => a.stop < b.start ∨ b.stop < a.start :=
    (scanSpans_pairwise lines).imp fun h => Or.inl h
  have hd := List.Pairwise.forall (fun a b h => h.symm) hp hs ht hne
  rcases hd with h | h
  · have := (scanSpans_inv lines s hs).2.1
    omega
  · have := (scanSpans_inv lines t ht).2.1
    omega

/-- Unpacking a successful threshold filter. -/
theorem violFilter_some {path : Str} {m : Nat} {allow : List Str} {s : FnSpan}
    {v : FnViol} (h : violFilter path m allow s = some v) :
    v = toViol path s ∧ s.len > m ∧ s.name ∉ allow := by
  unfold violFilter at h
  by_cases hc : s.len > m ∧ s.name ∉ allow
  · rw [if_pos hc] at h
    injection h with h
    exact ⟨h.symm, hc⟩
  · rw [if_neg hc] at h
    cases h

/-- Every per-file violation carries the file path it was scanned from. -/
theorem fnViolsFile_path (path : Str) (lines : List Str) (m : Nat)
    (allow : List Str) : ∀ v ∈ fnViolsFile path lines m allow, v.path = path := by
  intro v hv
  rw [fnViolsFile_eq_filterMap] at hv
  rcases List.mem_filterMap.mp hv with ⟨s, _, hsf⟩
  rcases violFilter_some hsf with ⟨rfl, _, _⟩
  rfl

/-- Per-file violations appear in scan order: strictly increasing start
lines. -/
theorem fnViolsFile_pairwise_start (path : Str) (lines : List Str) (m : Nat)
    (allow : List Str) :
    (fnViolsFile path lines m allow).Pairwise fun a b => a.start < b.start := by
  rw [fnViolsFile_eq_filterMap]
  have hp := List.Pairwise.and_mem.mp (scanSpans_pairwise lines)
  refine List.Pairwise.filterMap _ ?_ hp
  intro a b hab x hx y hy
  obtain ⟨hal, hbl, hstop⟩ := hab
  rcases violFilter_some (Option.mem_def.mp hx) with ⟨rfl, _, _⟩
  rcases violFilter_some (Option.mem_def.mp hy) with ⟨rfl, _, _⟩
  have := (scanSpans_inv lines a hal).2.1
  show a.start < b.start
  omega

/-- The exit code of `main` as one conditional chain in the order the
source checks the conditions. -/
theorem gateMain_snd (srcPath : Str) (rootExists : Bool) (mF mFn : Nat)
    (allowArgs : List Str) (strict : Bool) (baseline : Option Nat)
    (files : List RsFile) :
    (gateMain srcPath rootExists mF mFn allowArgs strict baseline files).2 =
      if rootExists = false then 2
      else if file_violations files mF ≠ [] ∨
          function_violations files mFn allowArgs ≠ [] then 1
      else if ∃ b, baseline = some b ∧ error_pattern_count files > b then 1
      else if strict = true ∧ 0 < error_pattern_count files then 1
      else 0 := by
  cases rootExists with
  | false => simp [gateMain]
  | true =>
    by_cases hv : file_violations files mF ≠ [] ∨
        function_violations files mFn allowArgs ≠ []
    · simp [gateMain, hv]
    · cases baseline with
      | none =>
        by_cases hs : strict = true ∧ 0 < error_pattern_count files
        · simp [gateMain, hv, hs]
        · simp [gateMain, hv, hs]
      | some b =>
        by_cases hb : error_pattern_count files > b
        · simp [gateMain, hv, hb]
        · by_cases hs : strict = true ∧ 0 < error_pattern_count files
          · simp [gateMain, hv, hb, hs]
          · simp [gateMain, hv, hb, hs]

/-- Claim C1 (counterexample): on the two lines `fn f() {} {` and `}` the
signature matches, the character-granularity scanner of the spec closes on
line 0 (the depth returns to zero right after the first closing brace, then
reopens on the same line), but the code's scanner returns line 1, because
it tests the depth only at end of line. -/
theorem c1_counterexample :
    matchFn (cexLines.getD 0 []) = some ['f'] ∧
    charLevelClose cexLines = some 0 ∧
    findClose cexLines = some 1 := by decide

/-- Claim C1 (amended): for every line sequence, the Brace-Depth Scanner
returns offset `k` exactly when line `k` is the first line at whose end —
after processing all of its characters — at least one opening brace has
been seen and the depth counter is zero; a line on which the depth reaches
zero only part-way and is reopened does not close the span. -/
theorem c1_line_end_closing (suffix : List Str) (k : Nat) :
    findClose suffix = some k ↔
      k < suffix.length ∧ lineClosedAt suffix k ∧
      ∀ k' < k, ¬ lineClosedAt suffix k' := by
  unfold findClose lineClosedAt
  exact findCloseAux_some_iff suffix (0, false) k

/-- Claim C1 amended-theorem witness at a concrete input. -/
theorem c1_line_end_closing_witness :
    0 < (["fn f() \x7b\x7d".toList] : List Str).length ∧
    lineClosedAt ["fn f() \x7b\x7d".toList] 0 ∧
    ∀ k' < 0, ¬ lineClosedAt ["fn f() \x7b\x7d".toList] k' :=
  (c1_line_end_closing ["fn f() \x7b\x7d".toList] 0).mp (by decide)

/-- Claim C2 (counterexample): with one file of two lines, a max-file-lines
limit of 1 and a baseline of 0 on a pattern count of 1, both failure
conditions apply, yet the run returns 1 without printing the
baseline-exceeded ERROR message. -/
theorem c2_counterexample :
    (gateMain "src".toList true 1 50 ["execute_task".toList] false (some 0)
      c2files).2 = 1 ∧
    noBaselineMsg (gateMain "src".toList true 1 50 ["execute_task".toList]
      false (some 0) c2files).1 = true ∧
    file_violations c2files 1 ≠ [] ∧
    error_pattern_count c2files = 1 := by decide

/-- Claim C2 (amended): past the existence check the unconditional report
diagnostics are always printed, but when a file or function violation
exists the gate returns 1 immediately, so the baseline-exceeded ERROR
message is never printed in that case. -/
theorem c2_viol_suppresses_baseline_msg (srcPath : Str) (mF mFn : Nat)
    (allowArgs : List Str) (strict : Bool) (baseline : Option Nat)
    (files : List RsFile)
    (h : file_violations files mF ≠ [] ∨
      function_violations files mFn allowArgs ≠ []) :
    gateMain srcPath true mF mFn allowArgs strict baseline files =
      (reportMsgs mF mFn allowArgs (file_violations files mF)
        (function_violations files mFn allowArgs)
        (error_pattern_count files), 1) ∧
    noBaselineMsg (gateMain srcPath true mF mFn allowArgs strict baseline
      files).1 = true := by
  have hg := gateMain_of_viol srcPath mF mFn allowArgs strict baseline files h
  refine ⟨hg, ?_⟩
  rw [hg]
  exact noBaselineMsg_reportMsgs mF mFn allowArgs _ _ _

/-- Claim C2 amended-theorem witness at a concrete input. -/
theorem c2_viol_suppresses_baseline_msg_witness :
    file_violations c2files 1 ≠ [] ∧
    noBaselineMsg (gateMain "src".toList true 1 50 ["execute_task".toList]
      false (some 0) c2files).1 = true :=
  ⟨by decide,
   (c2_viol_suppresses_baseline_msg "src".toList 1 50 ["execute_task".toList]
     false (some 0) c2files (Or.inl (by decide))).2⟩

/-- Claim C3: the exit status is 2 exactly when the source root is missing
(and then nothing but the error line is printed, before any scanning); it
is 1 exactly when the root exists and there is a file or function
violation, or a configured baseline is exceeded by the pattern count, or
strict mode is on with a positive count; and it is 0 otherwise. -/
theorem c3_exit_codes (srcPath : Str) (rootExists : Bool) (mF mFn : Nat)
    (allowArgs : List Str) (strict : Bool) (baseline : Option Nat)
    (files : List RsFile) :
    ((gateMain srcPath rootExists mF mFn allowArgs strict baseline files).2 = 2 ↔
      rootExists = false) ∧
    (rootExists = false →
      gateMain srcPath rootExists mF mFn allowArgs strict baseline files =
        ([GateMsg.rootNotFound srcPath], 2)) ∧
    ((gateMain srcPath rootExists mF mFn allowArgs strict baseline files).2 = 1 ↔
      rootExists = true ∧
        (file_violations files mF ≠ [] ∨
         function_violations files mFn allowArgs ≠ [] ∨
         (∃ b, baseline = some b ∧ error_pattern_count files > b) ∨
         (strict = true ∧ 0 < error_pattern_count files))) ∧
    ((gateMain srcPath rootExists mF mFn allowArgs strict baseline files).2 = 0 ↔
      rootExists = true ∧
        ¬(file_violations files mF ≠ [] ∨
          function_violations files mFn allowArgs ≠ [] ∨
          (∃ b, baseline = some b ∧ error_pattern_count files > b) ∨
          (strict = true ∧ 0 < error_pattern_count files))) := by
  refine ⟨?_, fun hr => by simp [gateMain, hr], ?_, ?_⟩ <;>
    rw [gateMain_snd] <;> split_ifs <;> simp_all <;> tauto

/-- Claim C3 witness at a concrete input. -/
theorem c3_exit_codes_witness :
    gateMain [] false 400 50 [] false none [] = ([GateMsg.rootNotFound []], 2) :=
  (c3_exit_codes [] false 400 50 [] false none []).2.1 rfl

/-- Claim C4: thresholds are strict greater-than on both levels: a file
with at most `max-file-lines` lines yields no file violation while one
line more yields exactly one; a span of exactly `max-fn-lines` lines
yields no function violation, a span one line longer yields exactly one
unless allow-listed, and an allow-listed name never yields one. -/
theorem c4_strict_thresholds (p t : Str) (m : Nat) (path : Str)
    (lines : List Str) (mf : Nat) (allow : List Str) :
    ((splitLines t).length ≤ m → file_violations [(p, t)] m = []) ∧
    ((splitLines t).length = m + 1 →
      file_violations [(p, t)] m = [(p, m + 1)]) ∧
    (∀ s ∈ scanSpans lines, s.len ≤ mf →
      ∀ v ∈ fnViolsFile path lines mf allow, v.start ≠ s.start) ∧
    (∀ s ∈ scanSpans lines, s.len = mf + 1 → s.name ∉ allow →
      toViol path s ∈ fnViolsFile path lines mf allow ∧
      ∀ v ∈ fnViolsFile path lines mf allow, v.start = s.start →
        v = toViol path s) ∧
    (∀ s ∈ scanSpans lines, s.name ∈ allow →
      ∀ v ∈ fnViolsFile path lines mf allow, v.start ≠ s.start) := by
  have hsort : sortFiles [(p, t)] = [(p, t)] := rfl
  have hkey : ∀ v ∈ fnViolsFile path lines mf allow, ∃ s ∈ scanSpans lines,
      v = toViol path s ∧ s.len > mf ∧ s.name ∉ allow := by
    intro v hv
    rw [fnViolsFile_eq_filterMap] at hv
    rcases List.mem_filterMap.mp hv with ⟨s, hs, hsf⟩
    exact ⟨s, hs, violFilter_some hsf⟩
  refine ⟨?_, ?_, ?_, ?_, ?_⟩
  · intro h
    unfold file_violations
    rw [hsort]
    have hcond : ¬ (splitLines (p, t).2).length > m := by
      show ¬ (splitLines t).length > m
      omega
    simp only [List.filterMap_cons]
    rw [if_neg hcond]
    rfl
  · intro h
    unfold file_violations
    rw [hsort]
    have hcond : (splitLines (p, t).2).length > m := by
      show (splitLines t).length > m
      omega
    simp only [List.filterMap_cons]
    rw [if_pos hcond]
    show (p, (splitLines t).length) :: List.filterMap _ [] = [(p, m + 1)]
    rw [h]
    rfl
  · intro s hs hlen v hv heq
    rcases hkey v hv with ⟨s', hs', rfl, hlen', _⟩
    have heq' : s'.start = s.start := heq
    have hss : s' = s := scanSpans_start_inj lines hs' hs heq'
    rw [hss] at hlen'
    omega
  · intro s hs hlen hna
    constructor
    · rw [fnViolsFile_eq_filterMap]
      refine List.mem_filterMap.mpr ⟨s, hs, ?_⟩
      unfold violFilter
      rw [if_pos ⟨by omega, hna⟩]
    · intro v hv heq
      rcases hkey v hv with ⟨s', hs', rfl, _, _⟩
      have hss : s' = s := scanSpans_start_inj lines hs' hs heq
      rw [hss]
  · intro s hs hna v hv heq
    rcases hkey v hv with ⟨s', hs', rfl, _, hna'⟩
    have hss : s' = s := scanSpans_start_inj lines hs' hs heq
    rw [hss] at hna'
    exact hna' hna

/-- Claim C4 witness at concrete boundary inputs. -/
theorem c4_strict_thresholds_witness :
    ((splitLines wText3).length ≤ 3 ∧ file_violations [(wPath, wText3)] 3 = []) ∧
    ((splitLines wText4).length = 3 + 1 ∧
      file_violations [(wPath, wText4)] 3 = [(wPath, 3 + 1)]) ∧
    c4span ∈ scanSpans c4lines ∧
    (c4span.len = 1 + 1 ∧ c4span.name ∉ ([] : List Str)) ∧
    toViol wPath c4span ∈ fnViolsFile wPath c4lines 1 [] := by
  have h3 := c4_strict_thresholds wPath wText3 3 wPath c4lines 1 []
  have h4 := c4_strict_thresholds wPath wText4 3 wPath c4lines 1 []
  exact ⟨⟨by decide, h3.1 (by decide)⟩,
         ⟨by decide, h4.2.1 (by decide)⟩,
         by decide, ⟨by decide, by decide⟩,
         (h3.2.2.2.1 c4span (by decide) (by decide) (by decide)).1⟩

/-- Claim C5: a signature whose body never closes produces no span for that
signature, the scan does not fail, and it resumes at the line after the
signature line. -/
theorem c5_unterminated_body (lines : List Str) (i : Nat) (name : Str)
    (hm : matchFn (lines.getD i []) = some name)
    (hc : findClose (lines.drop i) = none) :
    scanFrom lines i = scanFrom lines (i + 1) ∧
    ∀ s ∈ scanFrom lines i, s.start ≠ i + 1 := by
  have hi : i < lines.length := by
    by_contra hge
    rw [List.getD_eq_getElem?_getD, List.getElem?_eq_none (by omega)] at hm
    have hnil : matchFn ((none : Option Str).getD []) = none := matchFn_nil
    rw [hnil] at hm
    cases hm
  have hfuel : lines.length - i = (lines.length - (i + 1)) + 1 := by omega
  have hmain : scanFrom lines i = scanFrom lines (i + 1) := by
    unfold scanFrom
    rw [hfuel]
    simp [scanSpansAux, hi, hm, hc]
    cases matchFn lines[i] <;> rfl
  refine ⟨hmain, ?_⟩
  rw [hmain]
  intro s hs
  have := (scanSpansAux_inv lines (lines.length - (i + 1)) (i + 1) s hs).1
  omega

/-- Claim C5 witness: a one-line file whose function body never closes. -/
theorem c5_unterminated_body_witness :
    (matchFn (c5lines.getD 0 []) = some "f".toList ∧
      findClose (c5lines.drop 0) = none) ∧
    scanFrom c5lines 0 = scanFrom c5lines 1 :=
  ⟨⟨by decide, by decide⟩,
   (c5_unterminated_body c5lines 0 "f".toList (by decide) (by decide)).1⟩

/-- Claim C6: spans are non-overlapping and ordered — each produced span
ends strictly before any later-starting span begins, so a signature line
strictly inside a closed span never starts its own reported span. -/
theorem c6_nested_not_reported (lines : List Str) :
    (scanSpans lines).Pairwise (fun a b => a.stop < b.start) ∧
    ∀ s ∈ scanSpans lines, ∀ t ∈ scanSpans lines,
      s.start < t.start → s.stop < t.start := by
  refine ⟨scanSpans_pairwise lines, ?_⟩
  intro s hs t ht hlt
  have hne : s ≠ t := by
    intro he
    rw [he] at hlt
    omega
  have hp : (scanSpans lines).Pairwise
      fun a b : FnSpan => a.stop < b.start ∨ b.stop < a.start :=
    (scanSpans_pairwise lines).imp fun h => Or.inl h
  rcases List.Pairwise.forall (fun a b h => h.symm) hp hs ht hne with h | h
  · exact h
  · have := (scanSpans_inv lines t ht).2.1
    omega

/-- Claim C6 witness: two consecutive two-line functions. -/
theorem c6_nested_not_reported_witness :
    (⟨"a".toList, 1, 2, 2⟩ : FnSpan) ∈ scanSpans c6lines ∧
    (⟨"b".toList, 3, 4, 2⟩ : FnSpan) ∈ scanSpans c6lines ∧
    (1 : Nat) < 3 ∧ (2 : Nat) < 3 :=
  ⟨by decide, by decide, by decide,
   (c6_nested_not_reported c6lines).2 ⟨"a".toList, 1, 2, 2⟩ (by decide)
     ⟨"b".toList, 3, 4, 2⟩ (by decide) (by decide)⟩

/-- Claim C7: on permuted enumerations of the same files (with distinct
paths) both violation lists are identical; they are ordered by sorted file
path — the lexicographic order on path component tuples that `sorted()`
uses on `pathlib` paths — and within one file by scan order (strictly
increasing start line). -/
theorem c7_order_determinism (files₁ files₂ : List RsFile) (mF mFn : Nat)
    (allow : List Str) (hperm : List.Perm files₁ files₂)
    (hnd : (files₁.map Prod.fst).Nodup) :
    file_violations files₁ mF = file_violations files₂ mF ∧
    function_violations files₁ mFn allow = function_violations files₂ mFn allow ∧
    (file_violations files₁ mF).Pairwise
      (fun a b => pathParts a.1 ≤ pathParts b.1) ∧
    (function_violations files₁ mFn allow).Pairwise
      (fun a b => pathParts a.path ≤ pathParts b.path) ∧
    ∀ path lines, (fnViolsFile path lines mFn allow).Pairwise
      fun a b => a.start < b.start := by
  have hs : sortFiles files₁ = sortFiles files₂ := sortFiles_eq_of_perm hperm hnd
  refine ⟨by unfold file_violations; rw [hs],
          by unfold function_violations; rw [hs], ?_, ?_, ?_⟩
  · unfold file_violations
    refine List.Pairwise.filterMap _ ?_ (sortFiles_sorted files₁)
    intro a b hab x hx y hy
    have hxe : x = (a.1, (splitLines a.2).length) := by
      by_cases hca : (splitLines a.2).length > mF
      · rw [if_pos hca] at hx
        exact (Option.mem_some_iff.mp hx).symm
      · rw [if_neg hca] at hx
        exact absurd hx (Option.not_mem_none x)
    have hye : y = (b.1, (splitLines b.2).length) := by
      by_cases hcb : (splitLines b.2).length > mF
      · rw [if_pos hcb] at hy
        exact (Option.mem_some_iff.mp hy).symm
      · rw [if_neg hcb] at hy
        exact absurd hy (Option.not_mem_none y)
    rw [hxe, hye]
    exact hab
  · unfold function_violations
    rw [List.pairwise_flatMap]
    constructor
    · intro f hf
      refine List.pairwise_of_forall_mem_list ?_
      intro x hx y hy
      rw [fnViolsFile_path f.1 (splitLines f.2) mFn allow x hx,
          fnViolsFile_path f.1 (splitLines f.2) mFn allow y hy]
    · refine (sortFiles_sorted files₁).imp ?_
      intro a b hab x hx y hy
      rw [fnViolsFile_path a.1 (splitLines a.2) mFn allow x hx,
          fnViolsFile_path b.1 (splitLines b.2) mFn allow y hy]
      exact hab
  · intro path lines
    exact fnViolsFile_pairwise_start path lines mFn allow

/-- Claim C7 witness: the same two files enumerated in both orders. -/
theorem c7_order_determinism_witness :
    (List.Perm [w7b, w7a] [w7a, w7b] ∧ ([w7b, w7a].map Prod.fst).Nodup) ∧
    file_violations [w7b, w7a] 1 = file_violations [w7a, w7b] 1 ∧
    function_violations [w7b, w7a] 50 [] = function_violations [w7a, w7b] 50 [] :=
  ⟨⟨by decide, by decide⟩,
   (c7_order_determinism [w7b, w7a] [w7a, w7b] 1 50 [] (by decide) (by decide)).1,
   (c7_order_determinism [w7b, w7a] [w7a, w7b] 1 50 [] (by decide) (by decide)).2.1⟩

/-- Claim C8: however `--allow-fn` is used, the parsed allow list always
contains the built-in default `execute_task`, and an 80-line function of
that name produces no function violation at the default 50-line limit. -/
theorem c8_default_allow (extra : List Str) :
    "execute_task".toList ∈ allow_fn_args extra ∧
    function_violations [(c8path, c8text)] 50 (allow_fn_args extra) = [] := by
  refine ⟨List.mem_cons_self _ _, ?_⟩
  have hvf : violFilter c8path 50 (allow_fn_args extra)
      ⟨"execute_task".toList, 1, 80, 80⟩ = none := by
    unfold violFilter
    apply if_neg
    intro hcon
    exact hcon.2 (List.mem_cons_self _ _)
  have hspans : scanSpans (splitLines c8text) =
      [⟨"execute_task".toList, 1, 80, 80⟩] := by
    set_option maxRecDepth 16000 in decide
  unfold function_violations
  rw [show sortFiles [(c8path, c8text)] = [(c8path, c8text)] from rfl]
  simp only [List.flatMap_cons, List.flatMap_nil, List.append_nil]
  rw [fnViolsFile_eq_filterMap, hspans]
  simp only [List.filterMap_cons]
  rw [hvf]
  rfl

/-- Claim C9: every emitted function violation is 1-based with start at
most end and length equal to the closed line range; a body opening and
closing on the signature line yields a one-line span. -/
theorem c9_violation_invariants (files : List RsFile) (m : Nat)
    (allow : List Str) :
    (∀ v ∈ function_violations files m allow,
      1 ≤ v.start ∧ v.start ≤ v.stop ∧ v.len = v.stop - v.start + 1) ∧
    scanSpans ["fn f() \x7b \x7d".toList] = [⟨"f".toList, 1, 1, 1⟩] := by
  refine ⟨?_, by decide⟩
  intro v hv
  unfold function_violations at hv
  rcases List.mem_flatMap.mp hv with ⟨f, hf, hvf⟩
  rw [fnViolsFile_eq_filterMap] at hvf
  rcases List.mem_filterMap.mp hvf with ⟨s, hs, hsf⟩
  rcases violFilter_some hsf with ⟨rfl, _, _⟩
  exact scanSpans_inv _ s hs

/-- Claim C9 witness: a concrete emitted violation satisfies the span
invariant. -/
theorem c9_violation_invariants_witness :
    (⟨"a.rs".toList, "f".toList, 2, 1, 2⟩ : FnViol) ∈
      function_violations c9files 0 [] ∧
    ((1 : Nat) ≤ 1 ∧ (1 : Nat) ≤ 2 ∧ (2 : Nat) = 2 - 1 + 1) :=
  ⟨by decide, (c9_violation_invariants c9files 0 []).1
    ⟨"a.rs".toList, "f".toList, 2, 1, 2⟩ (by decide)⟩

/-- Claim C10: the extractor is total — any fuel covering the remaining
lines computes the same result (the cursor strictly advances, so
`lines.length - i` outer iterations always suffice), and the scan yields at
most one span per remaining line. -/
theorem c10_scan_terminates (lines : List Str) (f₁ f₂ i : Nat)
    (h₁ : lines.length - i ≤ f₁) (h₂ : lines.length - i ≤ f₂) :
    scanSpansAux lines f₁ i = scanSpansAux lines f₂ i ∧
    (scanFrom lines i).length ≤ lines.length - i :=
  ⟨scanSpansAux_congr lines f₁ f₂ i h₁ h₂,
   scanSpansAux_length lines (lines.length - i) i⟩

/-- Claim C10 witness at a concrete input. -/
theorem c10_scan_terminates_witness :
    ((["x".toList] : List Str).length - 0 ≤ 5 ∧
      (["x".toList] : List Str).length - 0 ≤ 1) ∧
    (scanSpansAux ["x".toList] 5 0 = scanSpansAux ["x".toList] 1 0 ∧
      (scanFrom ["x".toList] 0).length ≤ (["x".toList] : List Str).length - 0) :=
  ⟨⟨by decide, by decide⟩,
   c10_scan_terminates ["x".toList] 5 1 0 (by decide) (by decide)⟩

end QualityGate
